import Mathlib

/-!
Verification of the eco-data-extractor frontend (TypeScript) against its
natural-language specification.  The definitions below are a shallow
embedding of the relevant source functions; JavaScript strings become
`String`, `number` ids become `Nat` (with `Int` where JS subtraction can go
negative), `number` scores become `ℚ`, nullable fields become `Option`, and
JS objects become structures.  Each embedded function's doc comment names
the source file and symbol it was translated from.
-/

/-- TS `Category` (frontend/src/types/extraction.ts): a user-defined
extraction category with an optional expected-value set. -/
structure Category where
  id : String
  name : String
  prompt : String
  expectedValues : Option (List String)
deriving DecidableEq

/-- Does the pattern occur at the front of the list? (Character-level
helper used to model JS `String.prototype.includes`.) -/
def matchesAt : List Char → List Char → Bool
  | [], _ => true
  | _ :: _, [] => false
  | p :: ps, c :: cs => p == c && matchesAt ps cs

/-- Does the pattern occur contiguously anywhere in the list? -/
def occursIn (pat : List Char) : List Char → Bool
  | [] => matchesAt pat []
  | c :: cs => matchesAt pat (c :: cs) || occursIn pat cs

/-- String-level contiguous containment: `strMentions s pat` models JS
`s.includes(pat)` and is how we talk about what a prompt asks for. -/
def strMentions (s pat : String) : Bool :=
  occursIn pat.data s.data

/-- JS `Array.prototype.join(sep)` on a list of strings. -/
def joinSep (sep : String) : List String → String
  | [] => ""
  | [s] => s
  | s :: ss => s ++ sep ++ joinSep sep ss

/-- JS `String.prototype.toLowerCase`, character by character. -/
def jsToLowerCase (s : String) : String :=
  ⟨s.data.map Char.toLower⟩

/-- One numbered instruction line of the extraction prompt
(PromptPreview.tsx, `categoryInstructions`, the `.map` body). -/
def categoryInstructionLine (idx : Nat) (cat : Category) : String :=
  toString (idx + 1) ++ ". " ++ cat.name ++
    ": Extract and return a single value representing the " ++ jsToLowerCase cat.name

/-- PromptPreview.tsx `categoryInstructions`: numbered per-category lines. -/
def categoryInstructions (cats : List Category) : String :=
  joinSep "\n" (cats.enum.map fun p => categoryInstructionLine p.1 p.2)

/-- PromptPreview.tsx: does a category contribute to the `Valid Value Sets`
section?  (JS filter: `cat.expectedValues && cat.expectedValues.length > 0`.) -/
def hasExpectedValues (cat : Category) : Bool :=
  match cat.expectedValues with
  | some (_ :: _) => true
  | _ => false

/-- PromptPreview.tsx `expectedValuesInfo`, one line. -/
def expectedValuesLine (cat : Category) : String :=
  "- " ++ cat.name ++ ": Expected values are: " ++
    joinSep ", " (cat.expectedValues.getD [])

/-- PromptPreview.tsx `expectedValuesInfo`. -/
def expectedValuesInfo (cats : List Category) : String :=
  joinSep "\n" ((cats.filter hasExpectedValues).map expectedValuesLine)

/-- Fixed header of the system prompt (PromptPreview.tsx `systemPrompt`). -/
def promptHeader : String :=
  "You are a data extraction assistant. Your task is to extract specific information from provided text according to the following instructions.\n\nInstructions:\n"

/-- Fixed response-format section of the system prompt. -/
def responseFormatSection : String :=
  "\nResponse Format:\nReturn ONLY a JSON object with keys matching the category names and values as the extracted information. Do not include any explanation or additional text."

/-- PromptPreview.tsx `systemPrompt` template literal.  The JS conditional
`${expectedValuesInfo ? ... : ''}` tests string truthiness, i.e. emptiness. -/
def systemPrompt (cats : List Category) : String :=
  promptHeader ++ categoryInstructions cats ++ "\n\n" ++
    (if expectedValuesInfo cats = "" then ""
     else "Valid Value Sets:\n" ++ expectedValuesInfo cats ++ "\n") ++
    responseFormatSection

/-- PromptPreview.tsx `userPrompt` template literal. -/
def userPrompt (sampleText : String) : String :=
  "Extract the following information from the text below:\n\nText: \"" ++ sampleText ++ "\""

/-- The request built for the model: a system and a user message. -/
structure PromptRequest where
  system : String
  user : String
deriving DecidableEq

/-- PromptPreview.tsx `fullPrompt` (lines 40-69): returns `null` on an empty
category list, otherwise the system/user pair. -/
def fullPrompt (cats : List Category) (sampleText : String) : Option PromptRequest :=
  if cats.isEmpty then none
  else some { system := systemPrompt cats, user := userPrompt sampleText }

/-- TS `ExtractionEvidence` (frontend/src/types/api.ts lines 21-27): one
candidate extracted value with its citations and confidence.  `number`
confidence is modelled by `ℚ`. -/
structure ExtractionEvidence where
  value : Option String
  sentence_numbers : List Nat
  rationale : String
  is_inferred : Bool
  confidence : ℚ
deriving DecidableEq

/-- TS `CategoryExtraction` (frontend/src/types/api.ts lines 29-37): the
per-category result record; `values` is the confidence-descending Evidence
list, `primary_value` its first value.  The deprecated backward-compatibility
fields are unused by the export path and omitted. -/
structure CategoryExtraction where
  values : List ExtractionEvidence
  primary_value : Option String
deriving DecidableEq

/-- JS object-property lookup `record[key]` on a row's `extracted_data`,
`none` standing for `undefined`. -/
def lookupRecord (rec : List (String × CategoryExtraction)) (k : String) :
    Option CategoryExtraction :=
  (rec.find? fun p => p.1 == k).map Prod.snd

/-- JS `stringValue.replace(/"/g, '""')`: double every quote character. -/
def doubleQuotes : List Char → List Char
  | [] => []
  | c :: cs => if c = '"' then '"' :: '"' :: doubleQuotes cs else c :: doubleQuotes cs

/-- ResultsExport.tsx `exportToCSV` quoting: wrap in quotes and double the
inner quotes when the cell contains a comma, a quote or a newline. -/
def csvEscape (s : String) : String :=
  if s.data.contains ',' || s.data.contains '"' || s.data.contains '\n' then
    "\"" ++ String.mk (doubleQuotes s.data) ++ "\""
  else s

/-- ResultsExport.tsx `exportToCSV` line 113: `const value =
(row.extracted_data)?.[col] || ''` followed by `String(value)`.  A missing
key gives `undefined`, which `|| ''` turns into the empty string; a present
`CategoryExtraction` is an object, always truthy, and JS `String(object)`
yields the literal text `[object Object]`. -/
def jsStringOfCell (cell : Option CategoryExtraction) : String :=
  match cell with
  | none => ""
  | some _ => "[object Object]"

/-- The CSV cell `exportToCSV` produces for a category column. -/
def csvCategoryCell (extracted_data : List (String × CategoryExtraction))
    (col : String) : String :=
  csvEscape (jsStringOfCell (lookupRecord extracted_data col))

/-- The JSON cell `exportToJSON` (line 150) produces for a category column:
`obj[col] = (row.extracted_data)?.[col] || null`, i.e. the whole
`CategoryExtraction` record, or `null` when absent. -/
def jsonCategoryCell (extracted_data : List (String × CategoryExtraction))
    (col : String) : Option CategoryExtraction :=
  lookupRecord extracted_data col

/-- TS `validation_status` union `'confirmed' | 'rejected' | 'override'`
(PromptPreview.tsx, `ValidationFeedback`). -/
inductive ValidationStatus where
  | confirmed
  | rejected
  | override
deriving DecidableEq

/-- TS `ValidationFeedback` (PromptPreview.tsx lines 318-325). -/
structure ValidationFeedback where
  row_id : String
  category : String
  validation_status : ValidationStatus
  user_validated_sentences : List Nat
  manual_value : Option String := none
  notes : Option String := none
deriving DecidableEq

/-- JS strict inequality `manualValue !== extraction.value` where
`manualValue : string` and `value : string | null`: a string is never
strictly equal to `null`. -/
def jsStrNeqNullable (m : String) (v : Option String) : Bool :=
  match v with
  | some s => m != s
  | none => true

/-- PromptPreview.tsx `handleConfirmValidation` (lines 358-379): build a
`confirmed` record and upgrade it to `override` (carrying the manual value)
exactly when the edited value strictly differs from the extracted one. -/
def handleConfirmValidation (row_id selectedCategory : String)
    (selectedSentences : List Nat) (manualValue : String)
    (extractedValue : Option String) : ValidationFeedback :=
  let feedback : ValidationFeedback :=
    { row_id := row_id
      category := selectedCategory
      validation_status := .confirmed
      user_validated_sentences := selectedSentences }
  if jsStrNeqNullable manualValue extractedValue then
    { feedback with validation_status := .override, manual_value := some manualValue }
  else feedback

/-- PromptPreview.tsx `handleRejectCategory` (lines 381-391): the record
written by the `Mark as Incorrect` button. -/
def handleRejectCategory (row_id category : String) : ValidationFeedback :=
  { row_id := row_id
    category := category
    validation_status := .rejected
    user_validated_sentences := [] }

/-- The category form's data (CategoryForm in ExtractionCategoryPanel.tsx,
`formData`); missing text fields behave as the empty string. -/
structure CategoryFormData where
  id : String
  name : String
  prompt : String
  expectedValues : List String
deriving DecidableEq

/-- JS `String.prototype.trim`: strip leading and trailing whitespace. -/
def jsTrim (s : String) : String :=
  String.mk (((s.data.dropWhile Char.isWhitespace).reverse.dropWhile
    Char.isWhitespace).reverse)

/-- CategoryForm constant `PROMPT_TEMPLATE_HINT`. -/
def PROMPT_TEMPLATE_HINT : String := "{text}"

/-- CategoryForm constant `MAX_CATEGORY_NAME`. -/
def MAX_CATEGORY_NAME : Nat := 50

/-- CategoryForm constant `MAX_PROMPT_LENGTH`. -/
def MAX_PROMPT_LENGTH : Nat := 2000

/-- CategoryForm `validateForm` (lines 429-448): true iff the trimmed name
is non-empty and short enough, and the prompt is non-empty, contains the
`{text}` placeholder, and is short enough.  No other check is made. -/
def validateForm (f : CategoryFormData) : Bool :=
  (jsTrim f.name != "" && decide (f.name.length ≤ MAX_CATEGORY_NAME)) &&
    (jsTrim f.prompt != "" && strMentions f.prompt PROMPT_TEMPLATE_HINT &&
      decide (f.prompt.length ≤ MAX_PROMPT_LENGTH))

/-- CategoryForm `handleSave`: `addCategory(formData as Category)`. -/
def toCategory (f : CategoryFormData) : Category :=
  { id := f.id, name := f.name, prompt := f.prompt,
    expectedValues := some f.expectedValues }

/-- extractionStore `addCategory` (store, lines 112-115): plain append. -/
def addCategory (cats : List Category) (c : Category) : List Category :=
  cats ++ [c]

/-- CategoryForm `handleSave` composed with the store action for a new
category: validated forms are appended, invalid ones leave the state alone. -/
def handleSave (cats : List Category) (f : CategoryFormData) : List Category :=
  if validateForm f then addCategory cats (toCategory f) else cats

/-- Pairwise uniqueness of the category names in a state. -/
def namesUnique (cats : List Category) : Prop :=
  (cats.map fun c => c.name).Nodup

/-- TS job status union (frontend/src/types/api.ts `JobStatus.status`). -/
inductive JobState where
  | pending
  | processing
  | completed
  | failed
  | cancelled
deriving DecidableEq

/-- The statuses `useJobStatusPolling` treats as terminal (the disjunction
on line 37 of useJobStatusPolling.ts). -/
def isTerminalStatus : JobState → Bool
  | .completed => true
  | .failed => true
  | .cancelled => true
  | .pending => false
  | .processing => false

/-- Outcome of one `extractionApi.getStatus` call as seen by `poll`. -/
inductive PollResult where
  | ok (status : JobState)
  | fetchError (message : String)
deriving DecidableEq

/-- The hook state touched by `poll`: the reported `isPolling` flag, the last
status and the last error. -/
structure PollState where
  isPolling : Bool
  jobStatus : Option JobState
  error : Option String
deriving DecidableEq

/-- Hook state right after the effect body runs `setIsPolling(true)`
(useJobStatusPolling.ts line 30). -/
def initialPollState : PollState :=
  { isPolling := true, jobStatus := none, error := none }

/-- One execution of `poll` (useJobStatusPolling.ts lines 31-47): store the
fetched status, stop and fire `onComplete` on a terminal status, stop and
fire `onError` on a fetch failure.  The `Bool` is whether `onComplete`
fired. -/
def pollStep (s : PollState) : PollResult → PollState × Bool
  | .ok status =>
      let s1 : PollState := { s with jobStatus := some status, error := none }
      if isTerminalStatus status then ({ s1 with isPolling := false }, true)
      else (s1, false)
  | .fetchError m => ({ s with error := some m, isPolling := false }, false)

/-- The hook state after a sequence of poll outcomes. -/
def runPolls (s : PollState) (rs : List PollResult) : PollState :=
  rs.foldl (fun st r => (pollStep st r).1) s

/-- Events driving a job's lifecycle. -/
inductive JobEvent where
  | start
  | rowDone
  | complete
  | fail
  | cancel
deriving DecidableEq

/-- TS `JobStatus` snapshot fields the progress claims speak about
(frontend/src/types/api.ts lines 9-19). -/
structure Job where
  status : JobState
  total_rows : Nat
  processed_rows : Nat
deriving DecidableEq

/-- Modelled from the spec: the ExtractionOrchestrator's job state machine is
backend code not present under src/ — only the `JobStatus` type declaration
appears there.  Spec section 4.4: pending → processing → {completed, failed,
cancelled}; each attempted row increments `processed_rows` (monotonic);
processing → completed only when every row has been attempted.  Events that
violate a guard leave the job unchanged. -/
def jobApply (j : Job) : JobEvent → Job
  | .start =>
      if j.status = .pending then { j with status := .processing } else j
  | .rowDone =>
      if j.status = .processing ∧ j.processed_rows < j.total_rows then
        { j with processed_rows := j.processed_rows + 1 }
      else j
  | .complete =>
      if j.status = .processing ∧ j.processed_rows = j.total_rows then
        { j with status := .completed }
      else j
  | .fail =>
      if j.status = .processing then { j with status := .failed } else j
  | .cancel =>
      if j.status = .processing then { j with status := .cancelled } else j

/-- A freshly created job. -/
def initJob (total : Nat) : Job :=
  { status := .pending, total_rows := total, processed_rows := 0 }

/-- The job after a sequence of lifecycle events. -/
def runJob (j : Job) (es : List JobEvent) : Job :=
  es.foldl jobApply j

/-- One raw per-value section of a model response for a category, after
shape-tolerant location (spec section 4.3 step 1). -/
structure RawEvidenceItem where
  value : String
  sentence_refs : List Nat
  rationale : String
  confidence : Option ℚ
deriving DecidableEq

/-- One raw candidate-sentence suggestion (spec section 4.3 step 6). -/
structure RawCandidateItem where
  sentence_id : Nat
  relevance : ℚ
  reason : String
deriving DecidableEq

/-- A category's located payload: malformed, a list of alternative values,
or candidate sentences when no value was found. -/
inductive RawCategoryPayload where
  | malformed
  | found (items : List RawEvidenceItem)
  | missing (candidates : List RawCandidateItem)
deriving DecidableEq

/-- Spec data model `Evidence`. -/
structure Evidence where
  value : Option String
  sentence_refs : List Nat
  rationale : String
  is_inferred : Bool
  confidence : ℚ
deriving DecidableEq

/-- Spec data model `CandidateSentence`. -/
structure CandidateSentence where
  sentence_id : Nat
  relevance_score : ℚ
  reason : String
deriving DecidableEq

/-- Clamp a score to [0,1] (spec section 4.3 steps 4 and 6). -/
def clampUnit (q : ℚ) : ℚ := max 0 (min 1 q)

/-- Default confidence when the model gives none: higher for grounded, lower
for inferred (spec section 4.3 step 4; the exact numbers are illustrative and
tunable per section 9). -/
def defaultConfidence (inferred : Bool) : ℚ :=
  if inferred then 3 / 10 else 7 / 10

/-- Is a cited id within the row's valid range 1..n? -/
def validRef (n : Nat) (i : Nat) : Bool :=
  decide (1 ≤ i) && decide (i ≤ n)

/-- Modelled from the spec: the ResponseParser/EvidenceMapper is backend code
not present under src/ — only the `ExtractionEvidence` type declaration
appears there.  Spec section 4.3 steps 2-4: drop out-of-range ids with a
rationale caveat, set `is_inferred` iff a value is present with zero valid
refs, clamp or default the confidence. -/
def mkEvidence (n : Nat) (item : RawEvidenceItem) : Evidence :=
  let refs := item.sentence_refs.filter (validRef n)
  let inferred := refs.isEmpty
  { value := some item.value
    sentence_refs := refs
    rationale :=
      item.rationale ++
        (if refs.length < item.sentence_refs.length then
          " [out-of-range sentence ids dropped]" else "")
    is_inferred := inferred
    confidence := clampUnit (item.confidence.getD (defaultConfidence inferred)) }

/-- Insert one Evidence into a confidence-descending list. -/
def insertByConf (e : Evidence) : List Evidence → List Evidence
  | [] => [e]
  | x :: xs =>
      if x.confidence ≤ e.confidence then e :: x :: xs
      else x :: insertByConf e xs

/-- Sort Evidence by confidence, descending (spec section 4.3 step 5). -/
def sortByConfDesc : List Evidence → List Evidence
  | [] => []
  | e :: es => insertByConf e (sortByConfDesc es)

/-- Modelled from the spec: per-category parsing (spec section 4.3).  A
malformed section yields an empty Evidence list; alternative values become
Evidence sorted by confidence descending; with no value, candidate
suggestions are kept instead, out-of-range ids dropped and relevance
clamped. -/
def parseCategory (n : Nat) (raw : RawCategoryPayload) :
    List Evidence × List CandidateSentence :=
  match raw with
  | .malformed => ([], [])
  | .found items => (sortByConfDesc (items.map (mkEvidence n)), [])
  | .missing cands =>
      ([], (cands.filter fun c => validRef n c.sentence_id).map fun c =>
        { sentence_id := c.sentence_id
          relevance_score := clampUnit c.relevance
          reason := c.reason })

/-- ExtractionEvidenceCard.tsx truncation: JS
`text.length > 200 ? text.substring(0, 200) + '...' : text`. -/
def truncateSentence (s : String) : String :=
  if 200 < s.length then s.take 200 ++ "..." else s

/-- ExtractionEvidenceCard.tsx (lines 135-147), the immediately-invoked
preview body: `sentenceIndex = firstSentNum - 1` in JS number arithmetic
(hence `Int`); inside the bounds check the sentence at that index is shown,
otherwise the fallback text. -/
def sentencePreviewBody (firstSentNum : Nat) (sentences : List String) : String :=
  let sentenceIndex : Int := (firstSentNum : Int) - 1
  if h : 0 ≤ sentenceIndex ∧ sentenceIndex < sentences.length then
    "[" ++ toString firstSentNum ++ "] " ++
      truncateSentence (sentences.get ⟨sentenceIndex.toNat, by omega⟩)
  else "Sentence not available"

theorem matchesAt_self (p t : List Char) : matchesAt p (p ++ t) = true := by
  induction p with
  | nil => rfl
  | cons c cs ih => simp [matchesAt, ih]

theorem occursIn_nil_pat (l : List Char) : occursIn [] l = true := by
  cases l <;> simp [occursIn, matchesAt]

theorem matchesAt_extend {p l : List Char} (t : List Char)
    (h : matchesAt p l = true) : matchesAt p (l ++ t) = true := by
  induction p generalizing l with
  | nil => rfl
  | cons c cs ih =>
    cases l with
    | nil => simp [matchesAt] at h
    | cons d ds =>
      simp only [matchesAt, Bool.and_eq_true] at h
      rw [List.cons_append]
      simp only [matchesAt, Bool.and_eq_true]
      exact ⟨h.1, ih h.2⟩

theorem occursIn_append_left {p l : List Char} (t : List Char)
    (h : occursIn p l = true) : occursIn p (l ++ t) = true := by
  induction l with
  | nil =>
    cases p with
    | nil => exact occursIn_nil_pat t
    | cons c cs => simp [occursIn, matchesAt] at h
  | cons d ds ih =>
    rw [List.cons_append]
    simp only [occursIn, Bool.or_eq_true] at h ⊢
    rcases h with h | h
    · exact Or.inl (matchesAt_extend t h)
    · exact Or.inr (ih h)

theorem occursIn_append_right {p t : List Char} (l : List Char)
    (h : occursIn p t = true) : occursIn p (l ++ t) = true := by
  induction l with
  | nil => simpa using h
  | cons d ds ih =>
    rw [List.cons_append]
    simp only [occursIn, Bool.or_eq_true]
    exact Or.inr ih

theorem occursIn_self_append (p t : List Char) : occursIn p (p ++ t) = true := by
  cases p with
  | nil => exact occursIn_nil_pat t
  | cons c cs =>
    rw [List.cons_append]
    simp only [occursIn, Bool.or_eq_true]
    exact Or.inl (matchesAt_self (c :: cs) t)

theorem strMentions_append_left {a : String} (b : String) {pat : String}
    (h : strMentions a pat = true) : strMentions (a ++ b) pat = true := by
  unfold strMentions at h ⊢
  rw [String.data_append]
  exact occursIn_append_left _ h

theorem strMentions_append_right (a : String) {b pat : String}
    (h : strMentions b pat = true) : strMentions (a ++ b) pat = true := by
  unfold strMentions at h ⊢
  rw [String.data_append]
  exact occursIn_append_right _ h

theorem strMentions_refl (s : String) : strMentions s s = true := by
  unfold strMentions
  simpa using occursIn_self_append s.data []

theorem strMentions_joinSep {sep : String} {l : List String} {s : String}
    (h : s ∈ l) : strMentions (joinSep sep l) s = true := by
  induction l with
  | nil => cases h
  | cons a rest ih =>
    cases rest with
    | nil =>
      obtain rfl := List.mem_singleton.mp h
      show strMentions s s = true
      exact strMentions_refl s
    | cons b rs =>
      show strMentions (a ++ sep ++ joinSep sep (b :: rs)) s = true
      rcases List.mem_cons.mp h with rfl | h2
      · exact strMentions_append_left _ (strMentions_append_left _ (strMentions_refl s))
      · exact strMentions_append_right _ (ih h2)

/-- Concrete one-category schema used for C1. -/
def c1CatList : List Category :=
  [{ id := "cat_1", name := "revenue", prompt := "Find the revenue: {text}",
     expectedValues := none }]

set_option maxRecDepth 8000 in
/-- C1 counterexample: for the non-empty schema `c1CatList` the request the
preview builds for the model never mentions sentences, a rationale, or
candidate sentences at all — so it does not ask, per category, for cited
sentence ids, a short rationale, or ranked candidate sentence ids with
relevance and reason.  It asks only for a bare value per category. -/
theorem c1_prompt_counterexample :
    fullPrompt c1CatList "Sample." =
      some { system := systemPrompt c1CatList, user := userPrompt "Sample." } ∧
    strMentions (systemPrompt c1CatList) "sentence" = false ∧
    strMentions (systemPrompt c1CatList) "rationale" = false ∧
    strMentions (systemPrompt c1CatList) "candidate" = false ∧
    strMentions (userPrompt "Sample.") "sentence" = false :=
  ⟨rfl, by decide, by decide, by decide, by decide⟩

set_option maxRecDepth 8000 in
/-- C1 amended: for every non-empty category schema list, the extraction
request built for the model asks, per category, only for a single extracted
value (the numbered instruction line for each enumerated category appears in
the system message), instructs the model to return only a JSON object keyed
by the category names, and embeds the sample text in the user message; it
asks for no cited sentence ids, rationale, or candidate sentences. -/
theorem c1_prompt_request_amended :
    ∀ (cats : List Category) (text : String), cats ≠ [] →
      ∃ r, fullPrompt cats text = some r ∧
        (∀ p ∈ cats.enum,
          strMentions r.system (categoryInstructionLine p.1 p.2) = true) ∧
        strMentions r.system
          "Return ONLY a JSON object with keys matching the category names" = true ∧
        strMentions r.user text = true := by
  intro cats text hne
  refine ⟨{ system := systemPrompt cats, user := userPrompt text }, ?_, ?_, ?_, ?_⟩
  · simp [fullPrompt, List.isEmpty_iff, hne]
  · intro p hp
    have h1 : strMentions (categoryInstructions cats)
        (categoryInstructionLine p.1 p.2) = true := by
      apply strMentions_joinSep
      exact List.mem_map_of_mem _ hp
    unfold systemPrompt
    exact strMentions_append_left _ (strMentions_append_left _
      (strMentions_append_left _ (strMentions_append_right _ h1)))
  · have h2 : strMentions responseFormatSection
        "Return ONLY a JSON object with keys matching the category names" = true := by
      decide
    unfold systemPrompt
    exact strMentions_append_right _ h2
  · unfold userPrompt
    exact strMentions_append_left _ (strMentions_append_right _ (strMentions_refl text))

set_option maxRecDepth 8000 in
/-- C1 amended, witness at the concrete schema `c1CatList`. -/
theorem c1_prompt_request_amended_witness :
    ∃ r, fullPrompt c1CatList "Sample." = some r ∧
      strMentions r.system
        (categoryInstructionLine 0
          { id := "cat_1", name := "revenue", prompt := "Find the revenue: {text}",
            expectedValues := none }) = true := by
  obtain ⟨r, hr, hlines, hfmt, huser⟩ :=
    c1_prompt_request_amended c1CatList "Sample." (by decide)
  exact ⟨r, hr, hlines (0,
    { id := "cat_1", name := "revenue", prompt := "Find the revenue: {text}",
      expectedValues := none }) (by decide)⟩

/-- C5: prompt construction is a pure, deterministic, total function of the
category list and the sample text — identical inputs give identical
requests, and it returns a defined value for every input, yielding `none`
(the preview's `null`) exactly on the empty category list. -/
theorem c5_prompt_pure :
    ∀ (cats1 cats2 : List Category) (text1 text2 : String),
      cats1 = cats2 → text1 = text2 →
        fullPrompt cats1 text1 = fullPrompt cats2 text2 ∧
        (fullPrompt cats1 text1 = none ↔ cats1 = []) := by
  rintro cats1 _ text1 _ rfl rfl
  refine ⟨rfl, ?_, ?_⟩
  · intro h
    by_cases hc : cats1.isEmpty
    · exact List.isEmpty_iff.mp hc
    · simp [fullPrompt, hc] at h
  · intro h
    subst h
    rfl

/-- C5 witness at the empty schema and empty text. -/
theorem c5_prompt_pure_witness :
    fullPrompt [] "" = fullPrompt [] "" ∧
    (fullPrompt [] "" = none ↔ ([] : List Category) = []) :=
  c5_prompt_pure [] [] "" "" rfl rfl

/-- A concrete extraction result cell: one Evidence worth `$5M`. -/
def c2Evidence : ExtractionEvidence :=
  { value := some "$5M"
    sentence_numbers := [1]
    rationale := "Sentence 1 states the revenue"
    is_inferred := false
    confidence := 95 / 100 }

/-- The `CategoryExtraction` record for that cell, primary value `$5M`. -/
def c2Extraction : CategoryExtraction :=
  { values := [c2Evidence], primary_value := some "$5M" }

/-- A result row's `extracted_data` with one category, `revenue`. -/
def c2Row : List (String × CategoryExtraction) :=
  [("revenue", c2Extraction)]

/-- C2, evaluated at the failing input: for a row whose `revenue` category
has primary Evidence value `$5M`, the CSV export cell is the stringified
object `[object Object]`, not the primary value, and the JSON export cell is
the whole record rather than the primary value — the export never reads
`primary_value`, contradicting the claim and the spec. -/
theorem c2_export_primary_value_bug :
    csvCategoryCell c2Row "revenue" = "[object Object]" ∧
    csvCategoryCell c2Row "revenue" ≠ "$5M" ∧
    jsonCategoryCell c2Row "revenue" = some c2Extraction ∧
    c2Extraction.primary_value = some "$5M" := by
  refine ⟨by decide, by decide, rfl, rfl⟩

/-- C3: every feedback record built by the review component carries one of
the three statuses; `handleConfirmValidation` yields `override` (carrying
the manual value) exactly when the edited value differs from the extracted
one — where a `null` extracted value differs from every string — and
otherwise `confirmed` with no manual value; `handleRejectCategory` yields
`rejected`. -/
theorem c3_validation_feedback_statuses :
    ∀ (row cat : String) (sel : List Nat) (manual : String)
      (extracted : Option String),
      (handleConfirmValidation row cat sel manual extracted).validation_status =
        (if extracted = some manual then .confirmed else .override) ∧
      (handleConfirmValidation row cat sel manual extracted).manual_value =
        (if extracted = some manual then none else some manual) ∧
      (handleConfirmValidation row cat sel manual extracted).user_validated_sentences
        = sel ∧
      (handleRejectCategory row cat).validation_status = .rejected := by
  intro row cat sel manual extracted
  by_cases h : extracted = some manual
  · subst h
    have hfalse : jsStrNeqNullable manual (some manual) = false := by
      simp [jsStrNeqNullable]
    refine ⟨?_, ?_, ?_, rfl⟩ <;> simp [handleConfirmValidation, hfalse]
  · have htrue : jsStrNeqNullable manual extracted = true := by
      cases extracted with
      | none => rfl
      | some s =>
        have hms : manual ≠ s := by
          intro hs
          exact h (by rw [hs])
        simp [jsStrNeqNullable, bne_iff_ne, hms]
    refine ⟨?_, ?_, ?_, rfl⟩ <;> simp [handleConfirmValidation, htrue, h]

/-- C10: the record created by the reviewer's `Mark as Incorrect` action has
status `rejected`, an empty validated-sentence list, and no manual value,
for every row and category. -/
theorem c10_reject_record_shape :
    ∀ (row cat : String),
      (handleRejectCategory row cat).validation_status = .rejected ∧
      (handleRejectCategory row cat).user_validated_sentences = [] ∧
      (handleRejectCategory row cat).manual_value = none :=
  fun _ _ => ⟨rfl, rfl, rfl⟩

/-- An existing one-category state for C4. -/
def c4Existing : List Category :=
  [{ id := "cat_1", name := "Habitat", prompt := "Find the habitat: {text}",
     expectedValues := none }]

/-- A valid form whose name duplicates the existing category's name. -/
def c4Form : CategoryFormData :=
  { id := "cat_2", name := "Habitat", prompt := "Find the habitat: {text}",
    expectedValues := [] }

set_option maxRecDepth 4000 in
/-- C4 counterexample: a form whose name equals an existing category's name
passes `validateForm`, and saving appends it, so the reachable state holds
two categories named `Habitat` — duplicate names are not rejected. -/
theorem c4_duplicate_name_counterexample :
    validateForm c4Form = true ∧
    handleSave c4Existing c4Form = c4Existing ++ [toCategory c4Form] ∧
    ¬ namesUnique (handleSave c4Existing c4Form) := by
  refine ⟨by decide, rfl, ?_⟩
  show ¬ ((handleSave c4Existing c4Form).map fun c => c.name).Nodup
  decide

/-- C4 amended: the category form rejects only an empty or overlong name and
a missing, placeholder-free or overlong prompt; it never consults the
existing categories, so a valid form is appended even when its name equals
an existing category's name, and duplicate names are reachable. -/
theorem c4_add_category_amended :
    ∀ (cats : List Category) (f : CategoryFormData),
      validateForm f = true →
        handleSave cats f = cats ++ [toCategory f] := by
  intro cats f h
  simp [handleSave, addCategory, h]

set_option maxRecDepth 4000 in
/-- C4 amended, witness: saving the duplicate-name form appends it. -/
theorem c4_add_category_amended_witness :
    handleSave c4Existing c4Form = c4Existing ++ [toCategory c4Form] :=
  c4_add_category_amended c4Existing c4Form (by decide)

theorem pollStep_isPolling_mono (s : PollState) (r : PollResult)
    (h : s.isPolling = false) : (pollStep s r).1.isPolling = false := by
  cases r with
  | ok status => cases hts : isTerminalStatus status <;> simp [pollStep, hts, h]
  | fetchError m => simp [pollStep]

theorem runPolls_isPolling_mono (rs : List PollResult) (s : PollState)
    (h : s.isPolling = false) : (runPolls s rs).isPolling = false := by
  induction rs generalizing s with
  | nil => simpa [runPolls] using h
  | cons r rest ih =>
    show (runPolls (pollStep s r).1 rest).isPolling = false
    exact ih _ (pollStep_isPolling_mono s r h)

theorem pollStep_terminal_stops (s : PollState) (status : JobState)
    (h : isTerminalStatus status = true) :
    (pollStep s (.ok status)).1.isPolling = false := by
  simp [pollStep, h]

/-- C6: the polling loop treats a status as terminal exactly when it is
completed, failed or cancelled: the completion callback fires on a fetched
status iff that status is terminal (so never on pending or processing), a
terminal status switches the reported `isPolling` flag off, a fetch error
never fires the completion callback, and once a terminal status has been
observed anywhere in the poll sequence the hook reports `isPolling = false`
from then on. -/
theorem c6_polling_terminal :
    (∀ (s : PollState) (status : JobState),
      (pollStep s (.ok status)).2 = isTerminalStatus status ∧
      (isTerminalStatus status = true →
        (pollStep s (.ok status)).1.isPolling = false)) ∧
    (∀ (s : PollState) (m : String), (pollStep s (.fetchError m)).2 = false) ∧
    (∀ (before after : List PollResult) (status : JobState),
      isTerminalStatus status = true →
      (runPolls initialPollState
        (before ++ PollResult.ok status :: after)).isPolling = false) := by
  refine ⟨?_, ?_, ?_⟩
  · intro s status
    cases hts : isTerminalStatus status <;> simp [pollStep, hts]
  · intro s m
    rfl
  · intro before after status h
    unfold runPolls
    rw [List.foldl_append, List.foldl_cons]
    exact runPolls_isPolling_mono after _ (pollStep_terminal_stops _ _ h)

/-- C6 witness: a completed status stops the initial state, and a trace that
sees `completed` mid-way reports not-polling at its end. -/
theorem c6_polling_terminal_witness :
    (pollStep initialPollState (PollResult.ok .completed)).1.isPolling = false ∧
    (runPolls initialPollState
      ([PollResult.ok .processing] ++ PollResult.ok .completed ::
        [PollResult.ok .completed])).isPolling = false :=
  ⟨(c6_polling_terminal.1 initialPollState .completed).2 rfl,
   c6_polling_terminal.2.2 [PollResult.ok .processing] [PollResult.ok .completed]
     .completed rfl⟩

theorem jobApply_processed_mono (j : Job) (e : JobEvent) :
    j.processed_rows ≤ (jobApply j e).processed_rows := by
  cases e <;> simp only [jobApply] <;> split <;>
    first
      | exact Nat.le_refl _
      | exact Nat.le_succ _

/-- The invariant: a completed job has processed every row. -/
def jobCompletedInv (j : Job) : Prop :=
  j.status = .completed → j.processed_rows = j.total_rows

theorem jobApply_preserves_inv (j : Job) (e : JobEvent)
    (h : jobCompletedInv j) : jobCompletedInv (jobApply j e) := by
  unfold jobCompletedInv at h ⊢
  cases e with
  | start =>
    by_cases hg : j.status = .pending
    · simp only [jobApply, if_pos hg]
      intro hc
      exact JobState.noConfusion hc
    · simpa [jobApply, if_neg hg] using h
  | rowDone =>
    by_cases hg : j.status = .processing ∧ j.processed_rows < j.total_rows
    · simp only [jobApply, if_pos hg]
      intro hc
      exact JobState.noConfusion (hg.1.symm.trans hc)
    · simpa [jobApply, if_neg hg] using h
  | complete =>
    by_cases hg : j.status = .processing ∧ j.processed_rows = j.total_rows
    · simp only [jobApply, if_pos hg]
      intro _
      exact hg.2
    · simpa [jobApply, if_neg hg] using h
  | fail =>
    by_cases hg : j.status = .processing
    · simp only [jobApply, if_pos hg]
      intro hc
      exact JobState.noConfusion hc
    · simpa [jobApply, if_neg hg] using h
  | cancel =>
    by_cases hg : j.status = .processing
    · simp only [jobApply, if_pos hg]
      intro hc
      exact JobState.noConfusion hc
    · simpa [jobApply, if_neg hg] using h

theorem runJob_inv (total : Nat) (es : List JobEvent) :
    jobCompletedInv (runJob (initJob total) es) := by
  have h0 : jobCompletedInv (initJob total) := fun hc => JobState.noConfusion hc
  suffices hgen : ∀ (j : Job), jobCompletedInv j → jobCompletedInv (runJob j es) from
    hgen _ h0
  induction es with
  | nil => exact fun j hj => hj
  | cons e rest ih => exact fun j hj => ih _ (jobApply_preserves_inv j e hj)

/-- C7: over any sequence of lifecycle events, a job's `processed_rows`
counter never decreases at any step, and whenever the job's status is
`completed`, `processed_rows` equals `total_rows`. -/
theorem c7_job_progress :
    (∀ (j : Job) (e : JobEvent), j.processed_rows ≤ (jobApply j e).processed_rows) ∧
    (∀ (total : Nat) (es : List JobEvent),
      (runJob (initJob total) es).status = .completed →
      (runJob (initJob total) es).processed_rows =
        (runJob (initJob total) es).total_rows) :=
  ⟨jobApply_processed_mono, fun total es => runJob_inv total es⟩

/-- C7 witness on a one-row job driven to completion. -/
theorem c7_job_progress_witness :
    (initJob 1).processed_rows ≤ (jobApply (initJob 1) JobEvent.rowDone).processed_rows ∧
    (runJob (initJob 1) [JobEvent.start, JobEvent.rowDone, JobEvent.complete]).processed_rows =
      (runJob (initJob 1) [JobEvent.start, JobEvent.rowDone, JobEvent.complete]).total_rows :=
  ⟨c7_job_progress.1 (initJob 1) JobEvent.rowDone,
   c7_job_progress.2 1 [JobEvent.start, JobEvent.rowDone, JobEvent.complete] (by decide)⟩

theorem mem_insertByConf {e x : Evidence} {l : List Evidence}
    (h : x ∈ insertByConf e l) : x = e ∨ x ∈ l := by
  induction l with
  | nil => simpa [insertByConf] using h
  | cons a as ih =>
    unfold insertByConf at h
    by_cases hc : a.confidence ≤ e.confidence
    · rw [if_pos hc] at h
      rcases List.mem_cons.mp h with rfl | h2
      · exact Or.inl rfl
      · exact Or.inr h2
    · rw [if_neg hc] at h
      rcases List.mem_cons.mp h with rfl | h2
      · exact Or.inr (List.mem_cons_self _ _)
      · rcases ih h2 with h3 | h3
        · exact Or.inl h3
        · exact Or.inr (List.mem_cons_of_mem _ h3)

theorem mem_sortByConfDesc {x : Evidence} {l : List Evidence}
    (h : x ∈ sortByConfDesc l) : x ∈ l := by
  induction l with
  | nil => simp [sortByConfDesc] at h
  | cons e es ih =>
    unfold sortByConfDesc at h
    rcases mem_insertByConf h with rfl | h2
    · exact List.mem_cons_self _ _
    · exact List.mem_cons_of_mem _ (ih h2)

/-- C8: every Evidence in a parsed per-category result with
`is_inferred = false` cites at least one sentence. -/
theorem c8_grounding_invariant :
    ∀ (n : Nat) (raw : RawCategoryPayload) (e : Evidence),
      e ∈ (parseCategory n raw).1 → e.is_inferred = false →
        e.sentence_refs ≠ [] := by
  intro n raw e he hinf
  cases raw with
  | malformed => simp [parseCategory] at he
  | missing cands => simp [parseCategory] at he
  | found items =>
    simp only [parseCategory] at he
    have h1 : e ∈ items.map (mkEvidence n) := mem_sortByConfDesc he
    rcases List.mem_map.mp h1 with ⟨item, hitem, rfl⟩
    have hinf2 : (item.sentence_refs.filter (validRef n)).isEmpty = false := hinf
    have hrefs : (mkEvidence n item).sentence_refs =
        item.sentence_refs.filter (validRef n) := rfl
    rw [hrefs]
    intro hnil
    rw [hnil] at hinf2
    simp at hinf2

/-- A concrete raw response item citing sentence 1 on a two-sentence row. -/
def c8Item : RawEvidenceItem :=
  { value := "$5M", sentence_refs := [1],
    rationale := "sentence 1 states the revenue", confidence := some (95 / 100) }

/-- C8 witness at the concrete grounded item. -/
theorem c8_grounding_invariant_witness :
    (mkEvidence 2 c8Item).sentence_refs ≠ [] :=
  c8_grounding_invariant 2 (.found [c8Item]) (mkEvidence 2 c8Item)
    (show mkEvidence 2 c8Item ∈ [mkEvidence 2 c8Item] from
      List.mem_singleton.mpr rfl)
    (by decide)

/-- C9: for a first cited sentence number outside 1..N the preview body
produces the fallback text, and for an in-range number k it shows the
(possibly truncated) sentence stored at position k-1, obtained by a
bounds-checked access. -/
theorem c9_sentence_preview_bounds :
    ∀ (k : Nat) (sentences : List String),
      (k = 0 ∨ sentences.length < k →
        sentencePreviewBody k sentences = "Sentence not available") ∧
      (∀ h : 1 ≤ k ∧ k ≤ sentences.length,
        sentencePreviewBody k sentences =
          "[" ++ toString k ++ "] " ++
            truncateSentence (sentences.get ⟨k - 1, by omega⟩)) := by
  intro k sentences
  constructor
  · intro hout
    unfold sentencePreviewBody
    rw [dif_neg]
    rintro ⟨h1, h2⟩
    omega
  · intro h
    unfold sentencePreviewBody
    rw [dif_pos (by constructor <;> omega)]
    have hval : ((k : Int) - 1).toNat = k - 1 := by omega
    exact congrArg (fun t => "[" ++ toString k ++ "] " ++ truncateSentence t)
      (congrArg sentences.get (Fin.ext hval))

/-- C9 witness: number 5 on a two-sentence row falls back; number 1 shows
sentence 1. -/
theorem c9_sentence_preview_bounds_witness :
    sentencePreviewBody 5 ["alpha", "beta"] = "Sentence not available" ∧
    sentencePreviewBody 1 ["alpha", "beta"] =
      "[" ++ toString 1 ++ "] " ++
        truncateSentence (["alpha", "beta"].get ⟨0, by decide⟩) :=
  ⟨(c9_sentence_preview_bounds 5 ["alpha", "beta"]).1 (Or.inr (by decide)),
   (c9_sentence_preview_bounds 1 ["alpha", "beta"]).2 ⟨by decide, by decide⟩⟩
